import Mathlib

/-!
Shallow embedding of `src/main.rs` (apply_git_summary): a two-phase tool
that parses a `git diff --summary` change report into classification
tables, then classifies a stream of paths read from stdin.

Strings are modelled as lists of characters.  Rust byte indices coincide
with these character indices on the ASCII inputs the claims are about.
A Rust slice `&s[a..b]` that would panic (out of range) is modelled by
`sliceQ` returning `none`, and the panic propagates as `none` through
the parsing functions.

`HashMap<String, String>` is modelled as a function `Str → Option Str`
with insert-by-shadowing; the program never iterates over a map, only
calls `get`/`insert`, so this model is exact.
-/

abbrev Str := List Char

/-- Rust `str::find(pat)`: index of the first occurrence of `pat`. -/
def subAt (s pat : Str) (i : Nat) : Bool := pat.isPrefixOf (s.drop i)

def findSub (s pat : Str) : Option Nat :=
  (List.range (s.length + 1)).find? (subAt s pat)

/-- Rust `str::rfind(pat)`: index of the last occurrence of `pat`. -/
def rfindSub (s pat : Str) : Option Nat :=
  (List.range (s.length + 1)).reverse.find? (subAt s pat)

/-- Rust slice `&s[a..b]`; `none` models the out-of-range panic. -/
def sliceQ (s : Str) (a b : Nat) : Option Str :=
  if a ≤ b ∧ b ≤ s.length then some ((s.take b).drop a) else none

/-- Rust `String::replace("//", "/")`: leftmost-first, non-overlapping. -/
def collapseDS : Str → Str
  | [] => []
  | '/' :: '/' :: rest => '/' :: collapseDS rest
  | c :: rest => c :: collapseDS rest

/-- Rust `str::trim` (whitespace restricted to the ASCII class, which
covers every character the change-report format produces). -/
def rustTrim (s : Str) : Str :=
  ((s.dropWhile Char.isWhitespace).reverse.dropWhile Char.isWhitespace).reverse

-- Literal markers from the source (`{`, `}` written via hex escapes).
def strCreate : Str := "create mode ".toList
def strDelete : Str := "delete mode ".toList
def strRename : Str := "rename ".toList
def strTrue : Str := "true".toList
def lbraceS : Str := "\x7b".toList
def rbraceS : Str := "\x7d".toList
def arrowS : Str := " => ".toList
def sparenS : Str := " (".toList
def rparenS : Str := ")".toList
def spaceS : Str := " ".toList

/-- Lines 109–121 of `main.rs`: extract the trailing `(percent)` part.
Returns `(percent, remaining line)`; `none` would be a slicing panic. -/
def percentStep (ln : Str) : Option (Str × Str) :=
  match rfindSub ln sparenS, rfindSub ln rparenS with
  | some pstart, some pend =>
    if pend > pstart then
      match sliceQ ln (pstart + 2) pend with
      | some pc => some (pc, ln.take pstart)
      | none => none
    else
      some ([], ln.take pstart)
  | _, _ => some ([], ln)

/-- Lines 124–168 of `main.rs`: match the two rename grammars on the
line left after percent removal.  `none` = panic, `some none` = no
grammar matched, `some (some (pf, pt))` = parsed origin/destination. -/
def grammarStep (ln : Str) : Option (Option (Str × Str)) :=
  match findSub ln lbraceS, findSub ln rbraceS, findSub ln arrowS with
  | some lb, some rb, some sp =>
    match sliceQ ln (lb + 1) sp, sliceQ ln (sp + 4) rb with
    | some fr, some toSeg =>
      let pre := ln.take lb
      let post := ln.drop (rb + 1)
      some (some (collapseDS (pre ++ fr ++ post), collapseDS (pre ++ toSeg ++ post)))
    | _, _ => none
  | _, _, some sp =>
    some (some (ln.take sp, ln.drop (sp + 4)))
  | _, _, none => some none

/-- The whole rename-line body (after `"rename "` is stripped):
percent extraction followed by grammar matching. -/
def parseRenameRest (rest : Str) : Option (Option (Str × Str × Str)) :=
  match percentStep rest with
  | none => none
  | some (pc, ln2) =>
    match grammarStep ln2 with
    | none => none
    | some none => some none
    | some (some (pf, pt)) => some (some (pf, pt, pc))

structure Tables where
  create_map : Str → Option Str
  delete_map : Str → Option Str
  to_map : Str → Option Str
  from_map : Str → Option Str
  percent_map : Str → Option Str

def mapInsert (m : Str → Option Str) (k v : Str) : Str → Option Str :=
  fun x => if x = k then some v else m x

def emptyMap : Str → Option Str := fun _ => none

/-- Parser state: the five tables plus the rename side-channel records
(`path_from::path_to::percent` lines) in emission order. -/
structure PState where
  tabs : Tables
  side : List (Str × Str × Str)

def initState : PState := ⟨⟨emptyMap, emptyMap, emptyMap, emptyMap, emptyMap⟩, []⟩

/-- The rename-branch table/side-channel update (lines 139–150, 156–167). -/
def renameUpdate (st : PState) (pf pt pc : Str) : PState :=
  { tabs :=
    { st.tabs with
      to_map := mapInsert st.tabs.to_map pf pt
      from_map := mapInsert st.tabs.from_map pt pf
      percent_map :=
        if pc.length > 0 then
          mapInsert (mapInsert st.tabs.percent_map pf pc) pt pc
        else st.tabs.percent_map }
    side := st.side ++ [(pf, pt, pc)] }

/-- The body of one report-loop iteration on the already-trimmed line. -/
def stepTrimmed (st : PState) (ln : Str) : Option PState :=
  if strCreate.isPrefixOf ln then
    match findSub (ln.drop strCreate.length) spaceS with
    | some idx =>
      some { st with tabs :=
        { st.tabs with
          create_map := mapInsert st.tabs.create_map ((ln.drop strCreate.length).drop (idx + 1)) strTrue } }
    | none => some st
  else if strDelete.isPrefixOf ln then
    match findSub (ln.drop strDelete.length) spaceS with
    | some idx =>
      some { st with tabs :=
        { st.tabs with
          delete_map := mapInsert st.tabs.delete_map ((ln.drop strDelete.length).drop (idx + 1)) strTrue } }
    | none => some st
  else if strRename.isPrefixOf ln then
    match parseRenameRest (ln.drop strRename.length) with
    | none => none
    | some none => some st
    | some (some (pf, pt, pc)) => some (renameUpdate st pf pt pc)
  else some st

/-- One iteration of the report-parsing loop (lines 85–169): trim, then
dispatch on the line's marker. -/
def stepLine (st : PState) (line : Str) : Option PState :=
  stepTrimmed st (rustTrim line)

/-- The full report-parsing phase over the successfully read lines. -/
def runParser : PState → List Str → Option PState
  | st, [] => some st
  | st, l :: ls =>
    match stepLine st l with
    | none => none
    | some st2 => runParser st2 ls

inductive Classification where
  | created : Classification
  | deleted : Classification
  | renamedAway : Str → Classification
  | renamedIn : Str → Classification
  | unchanged : Classification
deriving DecidableEq

/-- Lines 180–207 of `main.rs`: classification of one already-trimmed
path against the finished tables, first match wins. -/
def classifyTrimmed (t : Tables) (ln : Str) : Classification :=
  match t.create_map ln with
  | some _ => Classification.created
  | none =>
    match t.delete_map ln with
    | some _ => Classification.deleted
    | none =>
      match t.to_map ln, t.percent_map ln with
      | some _, some pc => Classification.renamedAway pc
      | _, _ =>
        match t.from_map ln, t.percent_map ln with
        | some _, some pc => Classification.renamedIn pc
        | _, _ => Classification.unchanged

/-- Classification of a raw stdin line (the loop trims first, line 178). -/
def classify (t : Tables) (line : Str) : Classification :=
  classifyTrimmed t (rustTrim line)

/-- The stdin loop (lines 176–209): read errors (`none` entries) are
skipped; every successfully read line yields exactly one rendered line,
recorded as its classification plus the trimmed path it styles. -/
def renderStream (t : Tables) (inputs : List (Option Str)) : List (Classification × Str) :=
  inputs.filterMap (fun o => o.map (fun line => (classify t line, rustTrim line)))

structure MainResult where
  manifestCreated : Bool
  manifest : List (Str × Str × Str)
  out : List (Classification × Str)
deriving DecidableEq

/-- `main` (lines 55–210).  `args` is the full argv including the
program name (Rust `env::args`); `canCreate` is whether
`File::create(summary_out)` succeeds; `report` is `some lines` when the
report file opens (read errors already skipped by `flatten`), `none`
when it cannot be opened.  The source creates the output file before
trying to open the report, so the report-open-failure path has already
produced an (empty) manifest artifact. -/
def runMain (args : List Str) (canCreate : Bool) (report : Option (List Str))
    (stdinLines : List (Option Str)) : Option MainResult :=
  if args.length = 3 then
    if canCreate then
      match report with
      | none => some ⟨true, [], []⟩
      | some lines =>
        match runParser initState lines with
        | none => none
        | some st => some ⟨true, st.side, renderStream st.tabs stdinLines⟩
    else some ⟨false, [], []⟩
  else some ⟨false, [], []⟩

/-- The spec's inverse-relation invariant between the two rename maps. -/
def InverseMaps (t : Tables) : Prop :=
  (∀ o d, t.to_map o = some d → t.from_map d = some o) ∧
  (∀ d o, t.from_map d = some o → t.to_map o = some d)

/-- The spec's percent-witnessing invariant: every `percentOf` key is a
`renamedTo` key or a `renamedFrom` key. -/
def PctWitnessed (t : Tables) : Prop :=
  ∀ p, t.percent_map p ≠ none → t.to_map p ≠ none ∨ t.from_map p ≠ none

/-! ## Helper lemmas about trimming -/

def ftrim (l : Str) : Str := l.dropWhile Char.isWhitespace

def btrim (l : Str) : Str := (l.reverse.dropWhile Char.isWhitespace).reverse

theorem rustTrim_eq_bt_ft (s : Str) : rustTrim s = btrim (ftrim s) := rfl

theorem dropWhile_idem (p : Char → Bool) :
    ∀ l : Str, (l.dropWhile p).dropWhile p = l.dropWhile p
  | [] => rfl
  | c :: rest => by
    cases h : p c with
    | true => simp [List.dropWhile_cons, h, dropWhile_idem p rest]
    | false => simp [List.dropWhile_cons, h]

theorem dropWhile_head_false (p : Char → Bool) :
    ∀ l : Str, l.dropWhile p = [] ∨ ∃ a t, l.dropWhile p = a :: t ∧ p a = false
  | [] => Or.inl rfl
  | c :: rest => by
    cases h : p c with
    | true => simpa [List.dropWhile_cons, h] using dropWhile_head_false p rest
    | false => exact Or.inr ⟨c, rest, by simp [List.dropWhile_cons, h], h⟩

theorem ftrim_idem (l : Str) : ftrim (ftrim l) = ftrim l :=
  dropWhile_idem _ l

theorem btrim_idem (l : Str) : btrim (btrim l) = btrim l := by
  unfold btrim
  rw [List.reverse_reverse, dropWhile_idem]

theorem btrim_decompose (l : Str) :
    l = btrim l ++ (l.reverse.takeWhile Char.isWhitespace).reverse := by
  have h := congrArg List.reverse
    (List.takeWhile_append_dropWhile Char.isWhitespace l.reverse)
  rw [List.reverse_append, List.reverse_reverse] at h
  exact h.symm

theorem ftrim_btrim (l : Str) (hl : ftrim l = l) : ftrim (btrim l) = btrim l := by
  cases hBr : btrim l with
  | nil => rfl
  | cons a t =>
    have hApre := btrim_decompose l
    rw [hBr] at hApre
    rcases dropWhile_head_false Char.isWhitespace l with h0 | ⟨a2, t2, h2, hpa2⟩
    · rw [show l.dropWhile Char.isWhitespace = ftrim l from rfl, hl] at h0
      rw [h0] at hApre
      simp at hApre
    · rw [show l.dropWhile Char.isWhitespace = ftrim l from rfl, hl] at h2
      rw [h2] at hApre
      simp only [List.cons_append, List.cons.injEq] at hApre
      unfold ftrim
      rw [List.dropWhile_cons]
      have : Char.isWhitespace a = false := hApre.1 ▸ hpa2
      simp [this]

theorem rustTrim_idem (s : Str) : rustTrim (rustTrim s) = rustTrim s := by
  rw [rustTrim_eq_bt_ft, rustTrim_eq_bt_ft]
  rw [ftrim_btrim (ftrim s) (ftrim_idem s), btrim_idem]

theorem classify_trim (t : Tables) (s : Str) :
    classify t s = classify t (rustTrim s) := by
  unfold classify
  rw [rustTrim_idem]

/-! ## Helper lemmas about substring search and percent extraction -/

theorem rfindSub_facts (s pat : Str) (i : Nat) (h : rfindSub s pat = some i) :
    subAt s pat i = true ∧ i ≤ s.length := by
  refine ⟨List.find?_some h, ?_⟩
  have hm := List.mem_of_find?_eq_some h
  rw [List.mem_reverse, List.mem_range] at hm
  omega

theorem subAt_sparen (ln : Str) (a : Nat) (h : subAt ln sparenS a = true) :
    ln.drop a = ' ' :: '(' :: ln.drop (a + 2) := by
  unfold subAt at h
  obtain ⟨t, ht⟩ := List.isPrefixOf_iff_prefix.mp h
  have hs : ln.drop a = ' ' :: '(' :: t := by
    rw [← ht]; rfl
  have ht2 : ln.drop (a + 2) = t := by
    have := congrArg (List.drop 2) hs
    rw [List.drop_drop] at this
    simpa using this
  rw [hs, ht2]

theorem subAt_rparen (ln : Str) (b : Nat) (h : subAt ln rparenS b = true) :
    ln.drop b = ')' :: ln.drop (b + 1) := by
  unfold subAt at h
  obtain ⟨t, ht⟩ := List.isPrefixOf_iff_prefix.mp h
  have hs : ln.drop b = ')' :: t := by
    rw [← ht]; rfl
  have ht2 : ln.drop (b + 1) = t := by
    have := congrArg (List.drop 1) hs
    rw [List.drop_drop] at this
    simpa using this
  rw [hs, ht2]

theorem percent_bounds (ln : Str) (a b : Nat)
    (ha : subAt ln sparenS a = true) (hb : subAt ln rparenS b = true)
    (hab : a < b) (hblen : b ≤ ln.length) :
    a + 2 ≤ b ∧ b ≤ ln.length := by
  refine ⟨?_, hblen⟩
  have hsa := subAt_sparen ln a ha
  have hsb := subAt_rparen ln b hb
  by_contra hc
  have hb1 : b = a + 1 := by omega
  have h1 : ln.drop (a + 1) = '(' :: ln.drop (a + 2) := by
    have := congrArg (List.drop 1) hsa
    rw [List.drop_drop] at this
    simpa using this
  rw [hb1] at hsb
  rw [h1] at hsb
  simp at hsb

/-! ## Structure of one parser step -/

theorem stepTrimmed_shape (st st' : PState) (ln : Str)
    (h : stepTrimmed st ln = some st') :
    (st'.side = st.side ∧ st'.tabs.to_map = st.tabs.to_map ∧
      st'.tabs.from_map = st.tabs.from_map ∧
      st'.tabs.percent_map = st.tabs.percent_map) ∨
    (∃ pf pt pc, st' = renameUpdate st pf pt pc) := by
  unfold stepTrimmed at h
  split at h
  · split at h
    · injection h with h2
      subst h2
      exact Or.inl ⟨rfl, rfl, rfl, rfl⟩
    · injection h with h2
      subst h2
      exact Or.inl ⟨rfl, rfl, rfl, rfl⟩
  · split at h
    · split at h
      · injection h with h2
        subst h2
        exact Or.inl ⟨rfl, rfl, rfl, rfl⟩
      · injection h with h2
        subst h2
        exact Or.inl ⟨rfl, rfl, rfl, rfl⟩
    · split at h
      · split at h
        · exact absurd h (by simp)
        · injection h with h2
          subst h2
          exact Or.inl ⟨rfl, rfl, rfl, rfl⟩
        · rename_i pf pt pc _
          injection h with h2
          subst h2
          exact Or.inr ⟨pf, pt, pc, rfl⟩
      · injection h with h2
        subst h2
        exact Or.inl ⟨rfl, rfl, rfl, rfl⟩

theorem stepLine_shape (st st' : PState) (line : Str)
    (h : stepLine st line = some st') :
    (st'.side = st.side ∧ st'.tabs.to_map = st.tabs.to_map ∧
      st'.tabs.from_map = st.tabs.from_map ∧
      st'.tabs.percent_map = st.tabs.percent_map) ∨
    (∃ pf pt pc, st' = renameUpdate st pf pt pc) :=
  stepTrimmed_shape st st' (rustTrim line) h

/-- Any property preserved by every successful step holds at the end of
a successful parsing run. -/
theorem runParser_inv (P : PState → Prop)
    (hstep : ∀ s l s2, stepLine s l = some s2 → P s → P s2) :
    ∀ lines s s2, runParser s lines = some s2 → P s → P s2
  | [], s, s2, h, hp => by
    unfold runParser at h
    injection h with h2
    exact h2 ▸ hp
  | l :: ls, s, s2, h, hp => by
    unfold runParser at h
    cases hsl : stepLine s l with
    | none => rw [hsl] at h; exact absurd h (by simp)
    | some st2 =>
      rw [hsl] at h
      exact runParser_inv P hstep ls st2 s2 h (hstep s l st2 hsl hp)

/-! ## The side channel as the log of all map insertions -/

/-- The two rename maps agree with the side channel: each is the
last-wins lookup over the recorded rename pairs. -/
def MapsMatchSide (s : PState) : Prop :=
  (∀ o, s.tabs.to_map o =
    Option.map (fun r => r.2.1) (s.side.reverse.find? (fun r => decide (r.1 = o)))) ∧
  (∀ d, s.tabs.from_map d =
    Option.map (fun r => r.1) (s.side.reverse.find? (fun r => decide (r.2.1 = d))))

theorem mapsMatchSide_init : MapsMatchSide initState :=
  ⟨fun _ => rfl, fun _ => rfl⟩

theorem mapsMatchSide_step (s : PState) (l : Str) (s2 : PState)
    (h : stepLine s l = some s2) (hp : MapsMatchSide s) : MapsMatchSide s2 := by
  rcases stepLine_shape s s2 l h with ⟨hside, hto, hfrom, _⟩ | ⟨pf, pt, pc, rfl⟩
  · exact ⟨fun o => by rw [hto, hside]; exact hp.1 o,
      fun d => by rw [hfrom, hside]; exact hp.2 d⟩
  · constructor
    · intro o
      show mapInsert s.tabs.to_map pf pt o = _
      have hrev : (renameUpdate s pf pt pc).side.reverse = (pf, pt, pc) :: s.side.reverse := by
        show (s.side ++ [(pf, pt, pc)]).reverse = _
        rw [List.reverse_append]; rfl
      rw [hrev]
      by_cases ho : pf = o
      · subst ho
        rw [List.find?_cons_of_pos _ (by simp)]
        simp [mapInsert]
      · rw [List.find?_cons_of_neg _ (by simpa using ho)]
        have : mapInsert s.tabs.to_map pf pt o = s.tabs.to_map o := by
          unfold mapInsert
          rw [if_neg (fun h2 => ho h2.symm)]
        rw [this]
        exact hp.1 o
    · intro d
      show mapInsert s.tabs.from_map pt pf d = _
      have hrev : (renameUpdate s pf pt pc).side.reverse = (pf, pt, pc) :: s.side.reverse := by
        show (s.side ++ [(pf, pt, pc)]).reverse = _
        rw [List.reverse_append]; rfl
      rw [hrev]
      by_cases hd : pt = d
      · subst hd
        rw [List.find?_cons_of_pos _ (by simp)]
        simp [mapInsert]
      · rw [List.find?_cons_of_neg _ (by simpa using hd)]
        have : mapInsert s.tabs.from_map pt pf d = s.tabs.from_map d := by
          unfold mapInsert
          rw [if_neg (fun h2 => hd h2.symm)]
        rw [this]
        exact hp.2 d

theorem runParser_mapsMatchSide (lines : List Str) (s : PState)
    (h : runParser initState lines = some s) : MapsMatchSide s :=
  runParser_inv MapsMatchSide mapsMatchSide_step lines initState s h mapsMatchSide_init

/-! ## Render stream emits one line per successfully read input line -/

theorem renderStream_length (t : Tables) (inputs : List (Option Str)) :
    (renderStream t inputs).length = (inputs.filterMap id).length := by
  induction inputs with
  | nil => rfl
  | cons o rest ih =>
    cases o with
    | none => simpa [renderStream, List.filterMap_cons] using ih
    | some line => simpa [renderStream, List.filterMap_cons] using ih

/-! ## Claim theorems -/

/-- Claim C1: parsing the bracketed-shorthand line `rename a/{x => y}/b.txt (90%)`
and the plain-form line `rename a/x/b.txt => a/y/b.txt (90%)` produce the
identical (origin, dest, percent) triple — origin `a/x/b.txt`, dest
`a/y/b.txt`, percent `90%` — in the renamedTo/renamedFrom/percentOf maps
and in the side-channel record. -/
theorem C1_bracket_equivalence :
    parseRenameRest "a/\x7bx => y\x7d/b.txt (90%)".toList =
      some (some ("a/x/b.txt".toList, "a/y/b.txt".toList, "90%".toList)) ∧
    parseRenameRest "a/x/b.txt => a/y/b.txt (90%)".toList =
      parseRenameRest "a/\x7bx => y\x7d/b.txt (90%)".toList ∧
    ∃ s : PState,
      stepLine initState "rename a/\x7bx => y\x7d/b.txt (90%)".toList = some s ∧
      stepLine initState "rename a/x/b.txt => a/y/b.txt (90%)".toList = some s ∧
      s.tabs.to_map "a/x/b.txt".toList = some "a/y/b.txt".toList ∧
      s.tabs.from_map "a/y/b.txt".toList = some "a/x/b.txt".toList ∧
      s.tabs.percent_map "a/x/b.txt".toList = some "90%".toList ∧
      s.tabs.percent_map "a/y/b.txt".toList = some "90%".toList ∧
      s.side = [("a/x/b.txt".toList, "a/y/b.txt".toList, "90%".toList)] := by
  refine ⟨by decide, by decide, _, rfl, rfl, by decide, by decide, by decide, by decide, by decide⟩

/-- Claim C5 counterexample: the spec's concrete input `rename src/{=> sub}/f.c (100%)`
(no space before `=>`) does NOT parse as a rename at all — neither grammar
matches because the literal delimiter is `" => "` — so nothing is inserted,
refuting the claimed origin/destination result. -/
theorem C5_counterexample :
    parseRenameRest "src/\x7b=> sub\x7d/f.c (100%)".toList = some none ∧
    stepLine initState "rename src/\x7b=> sub\x7d/f.c (100%)".toList = some initState ∧
    initState.tabs.to_map "src/f.c".toList = none := by
  refine ⟨by decide, rfl, rfl⟩

/-- Claim C5 amended: with the space-delimited arrow git actually emits, the
input `rename src/\x7b => sub\x7d/f.c (100%)` parses as a rename with
origin `src/f.c` and destination `src/sub/f.c` (the doubled separator
from the empty from-segment is collapsed), inserting this pair into
renamedTo and renamedFrom. -/
theorem C5_amended :
    parseRenameRest "src/\x7b => sub\x7d/f.c (100%)".toList =
      some (some ("src/f.c".toList, "src/sub/f.c".toList, "100%".toList)) ∧
    ∃ s : PState,
      stepLine initState "rename src/\x7b => sub\x7d/f.c (100%)".toList = some s ∧
      s.tabs.to_map "src/f.c".toList = some "src/sub/f.c".toList ∧
      s.tabs.from_map "src/sub/f.c".toList = some "src/f.c".toList ∧
      s.side = [("src/f.c".toList, "src/sub/f.c".toList, "100%".toList)] := by
  refine ⟨by decide, _, rfl, by decide, by decide, by decide⟩

/-- Claim C7: the rename line `rename a\x7bb\x7dc => d` contains all three
markers (`\x7b` at 1, `\x7d` at 3, `" => "` at 5), yet Grammar A
extraction computes the slice `ln[9..3]`, an out-of-range access: the
embedded parser yields the panic marker `none`, so the claimed
no-panic totality fails and the whole process aborts on such a line,
contradicting the spec's non-fatal handling of malformed lines. -/
theorem C7_grammarA_panics :
    findSub "a\x7bb\x7dc => d".toList lbraceS = some 1 ∧
    findSub "a\x7bb\x7dc => d".toList rbraceS = some 3 ∧
    findSub "a\x7bb\x7dc => d".toList arrowS = some 5 ∧
    sliceQ "a\x7bb\x7dc => d".toList 9 3 = none ∧
    parseRenameRest "a\x7bb\x7dc => d".toList = none ∧
    stepLine initState "rename a\x7bb\x7dc => d".toList = none := by
  refine ⟨by decide, by decide, by decide, by decide, by decide, rfl⟩

/-- Claim C2 counterexample: on the rename-line remainder `x) (y` both a
rightmost `" ("` (index 2) and a rightmost `")"` (index 1) exist but in
the wrong order, so no percentage is extracted — yet the line is NOT
left intact: it is truncated to `x)`, refuting the claimed
"removed if and only if the ordering condition holds". -/
theorem C2_counterexample :
    rfindSub "x) (y".toList sparenS = some 2 ∧
    rfindSub "x) (y".toList rparenS = some 1 ∧
    percentStep "x) (y".toList = some ([], "x)".toList) ∧
    "x)".toList ≠ "x) (y".toList := by
  refine ⟨by decide, by decide, by decide, by decide⟩

/-- Claim C6 counterexample: after the report `rename a => b` then
`rename a => c` (two rename lines reusing origin `a`), `renamedFrom`
still maps `b` back to `a` but `renamedTo` maps `a` to `c`, so the two
maps are not inverse relations. -/
theorem C6_counterexample :
    ∃ s : PState,
      runParser initState ["rename a => b".toList, "rename a => c".toList] = some s ∧
      s.tabs.from_map "b".toList = some "a".toList ∧
      s.tabs.to_map "a".toList = some "c".toList ∧
      ¬ InverseMaps s.tabs := by
  refine ⟨_, rfl, by decide, by decide, fun hInv => ?_⟩
  exact absurd (hInv.2 "b".toList "a".toList (by decide)) (by decide)

/-- Claim C8 counterexample: with a correct argument count and a creatable
output file but an unopenable change report, the process still creates
the manifest-output artifact (the source calls `File::create` before
`read_lines`), refuting "no manifest-output artifact in any of the
three fatal cases"; stdout and manifest content remain empty. -/
theorem C8_counterexample :
    runMain ["prog".toList, "report".toList, "out".toList] true none [] =
      some ⟨true, [], []⟩ ∧
    (true : Bool) ≠ false := by
  refine ⟨by decide, by decide⟩

/-- Claim C2 amended: after the `"rename "` prefix is stripped, the percentage
is extracted exactly when the rightmost `" ("` (index a) and rightmost
`")"` (index b) both exist with a < b, and is then the text strictly
between them; but the truncation at the rightmost `" ("` happens
whenever BOTH markers exist, regardless of their order (with an empty
percentage when the order is wrong); the line is left intact only when
one of the markers is absent.  In all cases the extraction itself is
total (no panic). -/
theorem C2_amended (ln : Str) :
    (∀ a b, rfindSub ln sparenS = some a → rfindSub ln rparenS = some b →
      a < b → percentStep ln = some ((ln.take b).drop (a + 2), ln.take a)) ∧
    (∀ a b, rfindSub ln sparenS = some a → rfindSub ln rparenS = some b →
      b ≤ a → percentStep ln = some ([], ln.take a)) ∧
    ((rfindSub ln sparenS = none ∨ rfindSub ln rparenS = none) →
      percentStep ln = some ([], ln)) := by
  refine ⟨?_, ?_, ?_⟩
  · intro a b ha hb hab
    obtain ⟨hsa, _⟩ := rfindSub_facts ln sparenS a ha
    obtain ⟨hsb, hbl⟩ := rfindSub_facts ln rparenS b hb
    obtain ⟨h2b, _⟩ := percent_bounds ln a b hsa hsb hab hbl
    have hs : sliceQ ln (a + 2) b = some ((ln.take b).drop (a + 2)) := by
      unfold sliceQ
      rw [if_pos ⟨h2b, hbl⟩]
    unfold percentStep
    rw [ha, hb]
    show (if b > a then
        match sliceQ ln (a + 2) b with
        | some pc => some (pc, ln.take a)
        | none => none
      else some ([], ln.take a)) = some ((ln.take b).drop (a + 2), ln.take a)
    rw [if_pos hab, hs]
  · intro a b ha hb hba
    unfold percentStep
    rw [ha, hb]
    show (if b > a then
        match sliceQ ln (a + 2) b with
        | some pc => some (pc, ln.take a)
        | none => none
      else some ([], ln.take a)) = some ([], ln.take a)
    rw [if_neg (by omega)]
  · rintro (ha | hb)
    · unfold percentStep
      rw [ha]
    · cases ha2 : rfindSub ln sparenS with
      | none => unfold percentStep; rw [ha2]
      | some a => unfold percentStep; rw [ha2, hb]

/-- Claim C2 witness: on `f.c (90%)` (markers in order at 3 and 8) the percent
`90%` is extracted and the line truncated to `f.c`; on `x) (y` (markers
out of order) the line is still truncated, to `x)`, with no percent. -/
theorem C2_amended_witness :
    percentStep "f.c (90%)".toList = some ("90%".toList, "f.c".toList) ∧
    percentStep "x) (y".toList = some ([], "x)".toList) := by
  constructor
  · have h := (C2_amended "f.c (90%)".toList).1 3 8 (by decide) (by decide) (by decide)
    rw [h]; decide
  · have h := (C2_amended "x) (y".toList).2.1 2 1 (by decide) (by decide) (by decide)
    rw [h]; decide

/-- Claim C3: the classifier evaluates lookups in the fixed order created,
deleted, renamedTo-with-percentOf, renamedFrom-with-percentOf, then
Unchanged, first match winning; in particular a path in `created`
classifies as Created no matter what the rename maps say. -/
theorem C3_precedence (t : Tables) (ln : Str) :
    (t.create_map ln ≠ none → classifyTrimmed t ln = Classification.created) ∧
    (t.create_map ln = none → t.delete_map ln ≠ none →
      classifyTrimmed t ln = Classification.deleted) ∧
    (∀ pc, t.create_map ln = none → t.delete_map ln = none →
      t.to_map ln ≠ none → t.percent_map ln = some pc →
      classifyTrimmed t ln = Classification.renamedAway pc) ∧
    (∀ pc, t.create_map ln = none → t.delete_map ln = none →
      t.to_map ln = none → t.from_map ln ≠ none → t.percent_map ln = some pc →
      classifyTrimmed t ln = Classification.renamedIn pc) ∧
    (t.create_map ln = none → t.delete_map ln = none →
      (t.to_map ln = none ∨ t.percent_map ln = none) →
      (t.from_map ln = none ∨ t.percent_map ln = none) →
      classifyTrimmed t ln = Classification.unchanged) := by
  refine ⟨?_, ?_, ?_, ?_, ?_⟩
  · intro h
    obtain ⟨v, hv⟩ := Option.ne_none_iff_exists'.mp h
    unfold classifyTrimmed
    rw [hv]
  · intro h1 h2
    obtain ⟨v, hv⟩ := Option.ne_none_iff_exists'.mp h2
    unfold classifyTrimmed
    rw [h1, hv]
  · intro pc h1 h2 h3 h4
    obtain ⟨v, hv⟩ := Option.ne_none_iff_exists'.mp h3
    unfold classifyTrimmed
    rw [h1, h2, hv, h4]
  · intro pc h1 h2 h3 h4 h5
    obtain ⟨v, hv⟩ := Option.ne_none_iff_exists'.mp h4
    unfold classifyTrimmed
    rw [h1, h2, h3, hv, h5]
  · intro h1 h2 h3 h4
    unfold classifyTrimmed
    rw [h1, h2]
    rcases h3 with h3 | h3
    · rw [h3]
      rcases h4 with h4 | h4
      · rw [h4]
      · rw [h4]
        cases t.from_map ln <;> rfl
    · rw [h3]
      cases t.to_map ln <;>
        (first
          | (rcases h4 with h4 | h4
             · rw [h4]
             · cases t.from_map ln <;> rfl))

/-- Claim C3 witness: a path that is simultaneously a created path and a
rename destination with a recorded percentage classifies as Created. -/
theorem C3_precedence_witness :
    classifyTrimmed
      ⟨mapInsert emptyMap "p".toList strTrue, emptyMap, emptyMap,
        mapInsert emptyMap "p".toList "q".toList,
        mapInsert emptyMap "p".toList "80%".toList⟩
      "p".toList = Classification.created :=
  (C3_precedence _ _).1 (by decide)

theorem isPrefixOf_append_self (l rest : Str) : l.isPrefixOf (l ++ rest) = true := by
  induction l with
  | nil => simp
  | cons c cs ih => simp [List.isPrefixOf_cons₂, ih]

theorem create_not_prefixOf_rename (rest : Str) :
    strCreate.isPrefixOf (strRename ++ rest) = false := by
  show List.isPrefixOf ('c' :: "reate mode ".toList) ('r' :: ("ename ".toList ++ rest)) = false
  rw [List.isPrefixOf_cons₂]
  simp

theorem delete_not_prefixOf_rename (rest : Str) :
    strDelete.isPrefixOf (strRename ++ rest) = false := by
  show List.isPrefixOf ('d' :: "elete mode ".toList) ('r' :: ("ename ".toList ++ rest)) = false
  rw [List.isPrefixOf_cons₂]
  simp

theorem rename_prefixOf_self (rest : Str) :
    strRename.isPrefixOf (strRename ++ rest) = true :=
  isPrefixOf_append_self _ rest

theorem stepTrimmed_rename (st : PState) (rest : Str) :
    stepTrimmed st (strRename ++ rest) =
      match parseRenameRest rest with
      | none => none
      | some none => some st
      | some (some (pf, pt, pc)) => some (renameUpdate st pf pt pc) := by
  unfold stepTrimmed
  rw [create_not_prefixOf_rename, delete_not_prefixOf_rename, rename_prefixOf_self]
  simp only [Bool.false_eq_true, if_false, if_true, List.drop_left]

/-- Claim C4: a rename line whose parsed percentage is empty (no valid
`(...)` suffix) still inserts the pair into renamedTo/renamedFrom and
appends a side-channel record with empty percentage, but leaves
percentOf untouched; consequently the origin and the destination (when
not otherwise tabled) both classify as Unchanged. -/
theorem C4_rename_without_percent (st : PState) (line rest pf pt : Str)
    (hln : rustTrim line = strRename ++ rest)
    (hp : parseRenameRest rest = some (some (pf, pt, []))) :
    stepLine st line = some (renameUpdate st pf pt []) ∧
    (renameUpdate st pf pt []).tabs.percent_map = st.tabs.percent_map ∧
    (renameUpdate st pf pt []).tabs.to_map pf = some pt ∧
    (renameUpdate st pf pt []).tabs.from_map pt = some pf ∧
    (renameUpdate st pf pt []).side = st.side ++ [(pf, pt, [])] ∧
    (st.tabs.create_map pf = none → st.tabs.delete_map pf = none →
      st.tabs.percent_map pf = none →
      classifyTrimmed (renameUpdate st pf pt []).tabs pf = Classification.unchanged) ∧
    (st.tabs.create_map pt = none → st.tabs.delete_map pt = none →
      st.tabs.percent_map pt = none →
      classifyTrimmed (renameUpdate st pf pt []).tabs pt = Classification.unchanged) := by
  have hto : (renameUpdate st pf pt []).tabs.to_map pf = some pt := by
    show mapInsert st.tabs.to_map pf pt pf = some pt
    unfold mapInsert
    rw [if_pos rfl]
  have hfrom : (renameUpdate st pf pt []).tabs.from_map pt = some pf := by
    show mapInsert st.tabs.from_map pt pf pt = some pf
    unfold mapInsert
    rw [if_pos rfl]
  refine ⟨?_, rfl, hto, hfrom, rfl, ?_, ?_⟩
  · unfold stepLine
    rw [hln, stepTrimmed_rename, hp]
  · intro h1 h2 h3
    have e1 : (renameUpdate st pf pt []).tabs.create_map pf = none := h1
    have e2 : (renameUpdate st pf pt []).tabs.delete_map pf = none := h2
    have e3 : (renameUpdate st pf pt []).tabs.percent_map pf = none := h3
    unfold classifyTrimmed
    rw [e1, e2, e3, hto]
    cases hf : (renameUpdate st pf pt []).tabs.from_map pf <;> rfl
  · intro h1 h2 h3
    have e1 : (renameUpdate st pf pt []).tabs.create_map pt = none := h1
    have e2 : (renameUpdate st pf pt []).tabs.delete_map pt = none := h2
    have e3 : (renameUpdate st pf pt []).tabs.percent_map pt = none := h3
    unfold classifyTrimmed
    rw [e1, e2, e3, hfrom]
    cases ht : (renameUpdate st pf pt []).tabs.to_map pt <;> rfl

/-- Claim C4 witness: `rename a.txt => b.txt` (no percentage) inserts the
pair, records `(a.txt, b.txt, "")`, and both paths classify Unchanged. -/
theorem C4_witness :
    stepLine initState "rename a.txt => b.txt".toList =
      some (renameUpdate initState "a.txt".toList "b.txt".toList []) ∧
    classifyTrimmed (renameUpdate initState "a.txt".toList "b.txt".toList []).tabs
      "a.txt".toList = Classification.unchanged ∧
    classifyTrimmed (renameUpdate initState "a.txt".toList "b.txt".toList []).tabs
      "b.txt".toList = Classification.unchanged := by
  have h := C4_rename_without_percent initState "rename a.txt => b.txt".toList
    "a.txt => b.txt".toList "a.txt".toList "b.txt".toList rfl (by decide)
  exact ⟨h.1, h.2.2.2.2.2.1 rfl rfl rfl, h.2.2.2.2.2.2 rfl rfl rfl⟩

/-- Claim C6 amended: after a successful parsing run, renamedTo and
renamedFrom are inverse relations over the recorded rename pairs
PROVIDED no two parsed rename lines produced the same origin and no two
produced the same destination; (the unrestricted claim fails when a
later rename line reuses an origin or destination key, which overwrites
one map but leaves a stale entry in the other). -/
theorem C6_amended (lines : List Str) (s : PState)
    (h : runParser initState lines = some s)
    (hOrig : (s.side.map (fun r => r.1)).Nodup)
    (hDest : (s.side.map (fun r => r.2.1)).Nodup) :
    InverseMaps s.tabs := by
  have hm := runParser_mapsMatchSide lines s h
  constructor
  · intro o d hod
    rw [hm.1 o] at hod
    obtain ⟨r, hr, hrd⟩ := Option.map_eq_some'.mp hod
    have hro : r.1 = o := by simpa using List.find?_some hr
    have hmem : r ∈ s.side := List.mem_reverse.mp (List.mem_of_find?_eq_some hr)
    rw [hm.2 d]
    cases hfind : s.side.reverse.find? (fun r2 => decide (r2.2.1 = d)) with
    | none =>
      exfalso
      exact List.find?_eq_none.mp hfind r (List.mem_reverse.mpr hmem) (by simp [hrd])
    | some r2 =>
      have hr2d : r2.2.1 = d := by simpa using List.find?_some hfind
      have hmem2 : r2 ∈ s.side := List.mem_reverse.mp (List.mem_of_find?_eq_some hfind)
      have hrr : r2 = r := List.inj_on_of_nodup_map hDest hmem2 hmem (by rw [hr2d, hrd])
      simp [hrr, hro]
  · intro d o hdo
    rw [hm.2 d] at hdo
    obtain ⟨r, hr, hro⟩ := Option.map_eq_some'.mp hdo
    have hrd : r.2.1 = d := by simpa using List.find?_some hr
    have hmem : r ∈ s.side := List.mem_reverse.mp (List.mem_of_find?_eq_some hr)
    rw [hm.1 o]
    cases hfind : s.side.reverse.find? (fun r2 => decide (r2.1 = o)) with
    | none =>
      exfalso
      exact List.find?_eq_none.mp hfind r (List.mem_reverse.mpr hmem) (by simp [hro])
    | some r2 =>
      have hr2o : r2.1 = o := by simpa using List.find?_some hfind
      have hmem2 : r2 ∈ s.side := List.mem_reverse.mp (List.mem_of_find?_eq_some hfind)
      have hrr : r2 = r := List.inj_on_of_nodup_map hOrig hmem2 hmem (by rw [hr2o, hro])
      simp [hrr, hrd]

/-- Claim C6 witness: a two-line report with distinct origins and distinct
destinations yields inverse renamedTo/renamedFrom maps. -/
theorem C6_amended_witness :
    ∃ s : PState,
      runParser initState
        ["rename a => b (50%)".toList, "rename c => d (60%)".toList] = some s ∧
      InverseMaps s.tabs := by
  refine ⟨_, rfl, C6_amended
    ["rename a => b (50%)".toList, "rename c => d (60%)".toList] _ rfl
    (by decide) (by decide)⟩

/-- Claim C8 amended: a wrong argument count, or a failing manifest-file
creation, terminates with no stdout, no manifest content AND no
manifest artifact; but when only the change report fails to open, the
manifest artifact has already been created (empty) before the process
returns — still with no stdout and no manifest content. -/
theorem C8_amended (args : List Str) (report : Option (List Str))
    (stdin : List (Option Str)) :
    (args.length ≠ 3 → ∀ canCreate : Bool,
      runMain args canCreate report stdin = some ⟨false, [], []⟩) ∧
    (runMain args false report stdin = some ⟨false, [], []⟩) ∧
    (args.length = 3 → runMain args true none stdin = some ⟨true, [], []⟩) := by
  refine ⟨?_, ?_, ?_⟩
  · intro h canCreate
    unfold runMain
    rw [if_neg h]
  · unfold runMain
    by_cases h : args.length = 3
    · rw [if_pos h]
      rfl
    · rw [if_neg h]
  · intro h
    unfold runMain
    rw [if_pos h]
    rfl

/-- Claim C8 witness: one wrong-argument run producing nothing, and one run
with an unopenable report producing the (empty) artifact. -/
theorem C8_witness :
    runMain ["prog".toList] true none [] = some ⟨false, [], []⟩ ∧
    runMain ["prog".toList, "in".toList, "out".toList] true none [] =
      some ⟨true, [], []⟩ :=
  ⟨(C8_amended ["prog".toList] none []).1 (by decide) true,
   (C8_amended ["prog".toList, "in".toList, "out".toList] none []).2.2 (by decide)⟩

/-- Claim C9: after any successful parsing run, every key of percentOf is a
key of renamedTo or of renamedFrom: every percentage entry is witnessed
by a rename-pair entry containing that path, overwrites included
(map keys are never removed). -/
theorem C9_percent_witnessed (lines : List Str) (s : PState)
    (h : runParser initState lines = some s) : PctWitnessed s.tabs := by
  refine runParser_inv (fun st => PctWitnessed st.tabs) ?_ lines initState s h ?_
  · intro s1 l s2 hstep hp p hpc
    rcases stepLine_shape s1 s2 l hstep with ⟨_, hto, hfrom, hpct⟩ | ⟨pf, pt, pc, rfl⟩
    · rw [hpct] at hpc
      rw [hto, hfrom]
      exact hp p hpc
    · show mapInsert s1.tabs.to_map pf pt p ≠ none ∨ mapInsert s1.tabs.from_map pt pf p ≠ none
      by_cases hpf : p = pf
      · left
        subst hpf
        unfold mapInsert
        rw [if_pos rfl]
        exact Option.some_ne_none pt
      · by_cases hpt : p = pt
        · right
          subst hpt
          unfold mapInsert
          rw [if_pos rfl]
          exact Option.some_ne_none pf
        · have hpc2 : s1.tabs.percent_map p ≠ none := by
            have heq : (renameUpdate s1 pf pt pc).tabs.percent_map p = s1.tabs.percent_map p := by
              show (if pc.length > 0 then
                  mapInsert (mapInsert s1.tabs.percent_map pf pc) pt pc
                else s1.tabs.percent_map) p = s1.tabs.percent_map p
              by_cases hlen : pc.length > 0
              · rw [if_pos hlen]
                unfold mapInsert
                rw [if_neg hpt, if_neg hpf]
              · rw [if_neg hlen]
            rwa [heq] at hpc
          rcases hp p hpc2 with h1 | h1
          · left
            show mapInsert s1.tabs.to_map pf pt p ≠ none
            unfold mapInsert
            rwa [if_neg hpf]
          · right
            show mapInsert s1.tabs.from_map pt pf p ≠ none
            unfold mapInsert
            rwa [if_neg hpt]
  · intro p hpc
    exact absurd rfl hpc

/-- Claim C9 witness: a concrete one-line report satisfies the invariant. -/
theorem C9_witness :
    ∃ s : PState,
      runParser initState ["rename a => b (75%)".toList] = some s ∧
      PctWitnessed s.tabs :=
  ⟨_, rfl, C9_percent_witnessed ["rename a => b (75%)".toList] _ rfl⟩

/-- Claim C10: every successfully read stdin line yields exactly one rendered
line; classification depends only on the trimmed text (classify(s) =
classify(trim(s))); and a line absent from all four tables renders as
exactly one Unchanged line. -/
theorem C10_classifier_stream (t : Tables) (inputs : List (Option Str)) (s : Str) :
    (renderStream t inputs).length = (inputs.filterMap id).length ∧
    classify t s = classify t (rustTrim s) ∧
    (t.create_map (rustTrim s) = none → t.delete_map (rustTrim s) = none →
      t.to_map (rustTrim s) = none → t.from_map (rustTrim s) = none →
      classify t s = Classification.unchanged) := by
  refine ⟨renderStream_length t inputs, classify_trim t s, ?_⟩
  intro h1 h2 h3 h4
  unfold classify classifyTrimmed
  rw [h1, h2, h3, h4]

/-- Claim C10 witness: with empty tables, a padded line classifies Unchanged
(identically to its trimmed form). -/
theorem C10_witness :
    classify initState.tabs "  mystery.txt  ".toList = Classification.unchanged :=
  (C10_classifier_stream initState.tabs [] "  mystery.txt  ".toList).2.2 rfl rfl rfl rfl
